import Mathlib

/-!
Verification of the Radix engine kernel sources against their specification.

The development shallowly embeds the Rust sources under `radix-engine`,
`radix-engine-interface` and friends:

* `values.rs`   : the `RENode` enum with `verify_can_move`, `verify_can_persist`,
                  `try_drop`;
* `heap.rs`     : the `Heap` with `add_child_nodes` and `move_node_to_store`;
* `node_properties.rs` : `RENodeProperties::can_globalize`;
* `kernel.rs`   : the invocation entry points `invoke_function` / `invoke_method`
                  (modelled up to the child-frame push) and `node_globalize`;
* `bucket.rs` / `vault.rs` : the fixed-byte wire formats.

Code of the repository that is referenced but not present in the sources
(`call_frame.rs`, `errors.rs`, the resource models for `Bucket`, `Proof`,
`Worktop`, `Track`, `node_to_substates`) is modelled from the specification;
each such definition carries a doc comment starting with `Modelled from the
spec:`.

Machine integers are `Nat` (u32 overflow made explicit where it matters);
fallible Rust functions return `Except`; in-place mutation is explicit state
passing, returning the updated state together with an optional error so that
partially applied mutations remain observable.
-/

/-- Node identifiers (`RENodeId`). The sources contain two coexisting
revisions of this enum; this embedding takes their union: `Global` and
`AuthZone` appear only in `node_properties.rs`, the other constructors in
`kernel.rs`. The payload of `System` (absent in one revision, an address in
the other) is irrelevant to every claim and is omitted. -/
inductive RENodeId
| Bucket (id : Nat)
| Proof (id : Nat)
| Worktop
| Vault (id : List Nat)
| KeyValueStore (id : List Nat)
| Package (addr : Nat)
| ResourceManager (addr : Nat)
| Component (addr : Nat)
| System
| Global (addr : Nat)
| AuthZone (id : Nat)
deriving DecidableEq, Repr

/-- Modelled from the spec: the resource model for buckets is not in the
sources. §4.7: a bucket holds an amount (or id set) of one resource;
"Creating a proof from a bucket/vault increments a lock on the source
container; dropping the proof decrements. Buckets with lock > 0 are
immovable." We record the liquid amount and the locked amount. -/
structure BucketM where
  liquid : Nat
  locked : Nat
deriving DecidableEq, Repr

/-- Modelled from the spec: `Bucket::is_locked` — lock count positive. -/
def BucketM.is_locked (b : BucketM) : Bool := b.locked != 0

/-- Modelled from the spec: a bucket is empty when it holds no resource. -/
def BucketM.is_empty (b : BucketM) : Bool := b.liquid == 0 && b.locked == 0

/-- Modelled from the spec: the proof model is not in the sources. §4.7:
a proof carries a restricted/unrestricted flag. -/
structure ProofM where
  restricted : Bool
deriving DecidableEq, Repr

/-- Modelled from the spec: `Proof::is_restricted`. -/
def ProofM.is_restricted (p : ProofM) : Bool := p.restricted

/-- Modelled from the spec: `Proof::change_to_restricted` sets the flag. -/
def ProofM.change_to_restricted (p : ProofM) : ProofM := { p with restricted := true }

/-- Modelled from the spec: `Proof::drop` releases the locks on the
referenced containers (outside the scope of the claims) and always
succeeds. -/
def ProofM.drop (_ : ProofM) : Unit := ()

/-- Modelled from the spec: the worktop model is not in the sources. §3:
"Worktop: multiset of buckets indexed by resource address; must be empty at
end". We record the aggregate amount held across all slots. -/
structure WorktopM where
  total : Nat
deriving DecidableEq, Repr

/-- Modelled from the spec: a worktop is empty when no slot holds resource. -/
def WorktopM.is_empty (w : WorktopM) : Bool := w.total == 0

/-- `DropFailure` (used by `values.rs`; its defining `errors.rs` is not in
the sources, so the variants are those constructed in `values.rs`, plus
`Worktop` for the non-empty-worktop case of `Worktop::drop`). -/
inductive DropFailure
| Package
| Vault
| KeyValueStore
| Component
| Bucket
| Resource
| Worktop
deriving DecidableEq, Repr

/-- Modelled from the spec: `Worktop::drop` — legal only for empty worktops
(§3 "must be empty at end", §4.4 `drop_frame`). -/
def WorktopM.drop (w : WorktopM) : Except DropFailure Unit :=
  if w.total = 0 then .ok () else .error .Worktop

/-- `RENode` from `values.rs` (lines 106-117). Payloads irrelevant to the
claims are omitted. -/
inductive RENode
| Bucket (b : BucketM)
| Proof (p : ProofM)
| Vault
| KeyValueStore
| Component
| Worktop (w : WorktopM)
| Package
| Resource
| NonFungibles
deriving DecidableEq, Repr

/-- `RuntimeError` (its defining `errors.rs` is not in the sources; the
variants are the ones constructed by the embedded functions). `Unreachable`
stands for the Rust panics on states the kernel deems impossible. -/
inductive RuntimeError
| CantMoveLockedBucket
| CantMoveRestrictedProof
| ValueNotAllowed
| MaxCallDepthLimitReached
| KeyValueStoreNotAllowed
| VaultNotAllowed
| CostingError
| RENodeNotFound (id : RENodeId)
| InvokeMethodInvalidReferencePass (id : RENodeId)
| InvokeMethodInvalidReceiver (id : RENodeId)
| RENodeGlobalizeTypeNotAllowed (id : RENodeId)
| MethodDoesNotExist
| Unreachable
deriving DecidableEq, Repr

/-- `RENode::verify_can_move`, `values.rs` lines 197-221. -/
def RENode.verify_can_move : RENode → Except RuntimeError Unit
| .Bucket b => if b.is_locked then .error .CantMoveLockedBucket else .ok ()
| .Proof p => if p.is_restricted then .error .CantMoveRestrictedProof else .ok ()
| .KeyValueStore => .ok ()
| .Component => .ok ()
| .Vault => .ok ()
| .Resource => .ok ()
| .NonFungibles => .ok ()
| .Package => .ok ()
| .Worktop _ => .ok ()

/-- `RENode::verify_can_persist`, `values.rs` lines 223-235. -/
def RENode.verify_can_persist : RENode → Except RuntimeError Unit
| .KeyValueStore => .ok ()
| .Component => .ok ()
| .Vault => .ok ()
| .Resource => .error .ValueNotAllowed
| .NonFungibles => .error .ValueNotAllowed
| .Package => .error .ValueNotAllowed
| .Bucket _ => .error .ValueNotAllowed
| .Proof _ => .error .ValueNotAllowed
| .Worktop _ => .error .ValueNotAllowed

/-- `RENode::try_drop`, `values.rs` lines 237-252. Note that the source
rejects every bucket unconditionally and calls `proof.drop()` (which always
succeeds) on every proof, restricted or not. -/
def RENode.try_drop : RENode → Except DropFailure Unit
| .Package => .error .Package
| .Vault => .error .Vault
| .KeyValueStore => .error .KeyValueStore
| .Component => .error .Component
| .Bucket _ => .error .Bucket
| .Resource => .error .Resource
| .NonFungibles => .error .Resource
| .Proof p => let _ := p.drop; .ok ()
| .Worktop w => w.drop

/-! ## Wire formats: `bucket.rs` and `vault.rs` (`radix-engine-interface`) -/

/-- `Bucket(pub BucketId)` with `BucketId = u32`, `bucket.rs` line 176.
The u32 is a `Nat` below `2^32`. -/
structure Bucket where
  id : Nat
deriving DecidableEq, Repr

/-- `ParseBucketError`, `bucket.rs` lines 184-186. -/
inductive ParseBucketError
| InvalidLength (n : Nat)
deriving DecidableEq, Repr

/-- `u32::from_le_bytes` on a 4-byte slice (bytes are `Nat` below 256). -/
def u32_from_le_bytes : List Nat → Nat
| [b0, b1, b2, b3] => b0 + 256 * b1 + 65536 * b2 + 16777216 * b3
| _ => 0

/-- `TryFrom<&[u8]> for Bucket`, `bucket.rs` lines 202-211. -/
def Bucket.try_from (slice : List Nat) : Except ParseBucketError Bucket :=
  if slice.length = 4 then .ok ⟨u32_from_le_bytes slice⟩
  else .error (.InvalidLength slice.length)

/-- `Bucket::to_vec` (`u32::to_le_bytes`), `bucket.rs` lines 213-217. -/
def Bucket.to_vec (b : Bucket) : List Nat :=
  [b.id % 256, b.id / 256 % 256, b.id / 65536 % 256, b.id / 16777216 % 256]

/-- `Vault(pub VaultId)` with `VaultId = [u8; 36]`, `vault.rs` line 247.
The fixed-size byte array is a `Nat` list of length 36. -/
structure Vault where
  id : List Nat
deriving DecidableEq, Repr

/-- `ParseVaultError`, `vault.rs` lines 255-258. -/
inductive ParseVaultError
| InvalidHex (s : String)
| InvalidLength (n : Nat)
deriving DecidableEq, Repr

/-- `TryFrom<&[u8]> for Vault`, `vault.rs` lines 274-283. -/
def Vault.try_from (slice : List Nat) : Except ParseVaultError Vault :=
  if slice.length = 36 then .ok ⟨slice⟩
  else .error (.InvalidLength slice.length)

/-- `Vault::to_vec`, `vault.rs` lines 285-289. -/
def Vault.to_vec (v : Vault) : List Nat := v.id

/-! ## `node_properties.rs` -/

/-- `RENodeProperties::can_globalize`, `node_properties.rs` lines 9-23. -/
def RENodeProperties.can_globalize : RENodeId → Bool
| .Global _ => false
| .AuthZone _ => false
| .Bucket _ => false
| .Proof _ => false
| .KeyValueStore _ => false
| .Worktop => false
| .Component _ => true
| .Vault _ => false
| .ResourceManager _ => true
| .Package _ => true
| .System => true

/-! ## `heap.rs`

`heap.rs` belongs to the later source revision, in which `HeapRENode` is a
struct of a root node plus child node ids, and errors are `CallFrameError`.
The `HashMap` of nodes is an association list whose keys are treated as a
finite map (removal drops the key everywhere, as `HashMap::remove` does).
-/

/-- `CallFrameError` (defining `errors.rs` not in the sources; the variant is
the one `heap.rs` constructs). -/
inductive CallFrameError
| RENodeNotOwned (id : RENodeId)
deriving DecidableEq, Repr

/-- A substate offset within a node. The offset type of the later revision
is not in the sources; the claims never inspect it, so it is a `Nat`. -/
abbrev SubstateOffset := Nat

/-- A substate value. The claims never inspect it, so it is a `Nat`. -/
abbrev Substate := Nat

/-- Modelled from the spec: the later-revision `RENode` (`node.rs`) is not
in the sources; per §4.2 a heap node root is "a root substate set", which is
all `node_to_substates` extracts from it, so we represent the root by its
list of (offset, substate) pairs. -/
structure RENodeLater where
  substates : List (SubstateOffset × Substate)
deriving DecidableEq, Repr

/-- Modelled from the spec: `node_to_substates` (`crate::model`, not in the
sources) drains a node into its (offset, substate) pairs (§4.2
`move_to_store`). -/
def node_to_substates (node : RENodeLater) : List (SubstateOffset × Substate) :=
  node.substates

/-- `HeapRENode` of `heap.rs`: a root plus the ids of logically contained
child nodes (child id sets are lists here; `HashSet` iteration order is
fixed by the list). -/
structure HeapRENode where
  root : RENodeLater
  child_nodes : List RENodeId
deriving DecidableEq, Repr

/-- `SubstateId(node_id, offset)` of the later revision. -/
structure SubstateIdL where
  node : RENodeId
  offset : SubstateOffset
deriving DecidableEq, Repr

/-- Modelled from the spec: `Track` (§4.3) as its uncommitted write buffer,
keyed by `SubstateId`; `insert_substate` records the pair. -/
structure Track where
  substates : List (SubstateIdL × Substate)
deriving DecidableEq, Repr

/-- Modelled from the spec: `Track::insert_substate`. -/
def Track.insert_substate (t : Track) (sid : SubstateIdL) (s : Substate) : Track :=
  ⟨(sid, s) :: t.substates⟩

/-- Association-list lookup with decidable-equality keys. -/
def alookup {α : Type} : List (RENodeId × α) → RENodeId → Option α
| [], _ => none
| (k, v) :: xs, id => if k = id then some v else alookup xs id

/-- `Heap`, `heap.rs` lines 7-9. -/
structure Heap where
  nodes : List (RENodeId × HeapRENode)
deriving DecidableEq, Repr

/-- `Heap::get_node` (by id) as a pure lookup. -/
def Heap.lookupNode (h : Heap) (node_id : RENodeId) : Option HeapRENode :=
  alookup h.nodes node_id

/-- `HashMap::remove`: drop the key, returning the removed value. -/
def Heap.removeNode (h : Heap) (node_id : RENodeId) : Option (HeapRENode × Heap) :=
  match h.lookupNode node_id with
  | none => none
  | some v => some (v, ⟨h.nodes.filter (fun p => decide (p.1 ≠ node_id))⟩)

/-- `Heap::create_node`, `heap.rs` lines 33-35. -/
def Heap.create_node (h : Heap) (node_id : RENodeId) (node : HeapRENode) : Heap :=
  ⟨(node_id, node) :: (h.nodes.filter (fun p => decide (p.1 ≠ node_id)))⟩

/-- `Heap::add_child_nodes`, `heap.rs` lines 37-65: first a sanity pass that
every child id is heap-resident (else `RENodeNotOwned` with the heap left
untouched), then `get_node_mut(to)?.child_nodes.extend(node_ids)`. The
updated heap is returned together with the optional error. -/
def Heap.add_child_nodes (h : Heap) (node_ids : List RENodeId) (parent : RENodeId) :
    Heap × Option CallFrameError :=
  match node_ids.find? (fun id => (h.lookupNode id).isNone) with
  | some id => (h, some (.RENodeNotOwned id))
  | none =>
    match h.lookupNode parent with
    | none => (h, some (.RENodeNotOwned parent))
    | some _node =>
      (⟨h.nodes.map (fun p =>
          if p.1 = parent then (p.1, { p.2 with child_nodes := p.2.child_nodes ++ node_ids })
          else p)⟩,
       none)

theorem alookup_mem {α : Type} {xs : List (RENodeId × α)} {id : RENodeId} {v : α}
    (h : alookup xs id = some v) : ∃ p ∈ xs, p.1 = id ∧ p.2 = v := by
  induction xs with
  | nil => simp [alookup] at h
  | cons x rest ih =>
    by_cases hx : x.1 = id
    · simp only [alookup, hx, if_pos, Option.some.injEq] at h
      exact ⟨x, List.mem_cons_self _ _, hx, h⟩
    · simp only [alookup, hx, if_neg, if_false] at h
      obtain ⟨p, hp, hpe, hpv⟩ := ih h
      exact ⟨p, List.mem_cons_of_mem _ hp, hpe, hpv⟩

theorem removeNode_length {h : Heap} {id : RENodeId} {v : HeapRENode} {h' : Heap}
    (hr : h.removeNode id = some (v, h')) : h'.nodes.length < h.nodes.length := by
  unfold Heap.removeNode at hr
  cases hl : h.lookupNode id with
  | none => rw [hl] at hr; exact absurd hr (by simp)
  | some w =>
    rw [hl] at hr
    simp only [Option.some.injEq, Prod.mk.injEq] at hr
    obtain ⟨-, rfl⟩ := hr
    obtain ⟨p, hp, hpe, -⟩ := alookup_mem hl
    exact List.length_filter_lt_length_iff_exists.mpr ⟨p, hp, by simp [hpe]⟩

/-- The worklist form of `Heap::move_node_to_store` / `move_nodes_to_store`,
`heap.rs` lines 67-85: pop an id, remove it from the heap (failing with
`RENodeNotOwned` if absent, leaving the heap as mutated so far), insert the
node's substates into Track keyed by `SubstateId(node_id, offset)`, then
push the node's children. Prepending the children reproduces the source's
depth-first recursion order. -/
def movePending (h : Heap) (t : Track) (pending : List RENodeId) :
    Heap × Track × Option CallFrameError :=
  match pending with
  | [] => (h, t, none)
  | node_id :: rest =>
    match hr : h.removeNode node_id with
    | none => (h, t, some (.RENodeNotOwned node_id))
    | some (node, h') =>
      have := removeNode_length hr
      let t' := (node_to_substates node.root).foldl
        (fun acc p => acc.insert_substate ⟨node_id, p.1⟩ p.2) t
      movePending h' t' (node.child_nodes ++ rest)
termination_by h.nodes.length

/-- `Heap::move_node_to_store`, `heap.rs` lines 75-85. -/
def Heap.move_node_to_store (h : Heap) (t : Track) (node_id : RENodeId) :
    Heap × Track × Option CallFrameError :=
  movePending h t [node_id]

/-- Reachability through child-node sets from a seed list, over a fixed
heap: the seeds are reachable, and the children of a reachable, heap-resident
node are reachable. -/
inductive ReachFrom (h : Heap) (seeds : List RENodeId) : RENodeId → Prop
| seed {x : RENodeId} : x ∈ seeds → ReachFrom h seeds x
| step {x y : RENodeId} {n : HeapRENode} :
    ReachFrom h seeds x → h.lookupNode x = some n → y ∈ n.child_nodes →
    ReachFrom h seeds y

/-! ## `kernel.rs`

The kernel revision of the sources: `HeapRENode` here is an enum of node
kinds (named `HeapRENodeK` because the other revision's struct already
carries the name), `HeapRootRENode` bundles a root with its child nodes,
and `Kernel` holds the call-frame stack. The invocation entry points are
modelled from the depth check up to and including the child-frame push;
the callee execution and the return path (`run`, lines 223-448) lie outside
every claim and are not modelled. In-place mutation is explicit: each entry
point returns the updated kernel together with an optional error, so state
mutated before a failure stays observable. -/

/-- `HeapRENode` of `kernel.rs` (enum revision). Payloads irrelevant to the
claims are omitted. -/
inductive HeapRENodeK
| Bucket (b : BucketM)
| Proof (p : ProofM)
| Worktop (w : WorktopM)
| Vault
| KeyValueStore
| Package
| Resource
| Component
| System
deriving DecidableEq, Repr

/-- `HeapRootRENode` of `kernel.rs`: a root node plus its child nodes. -/
structure HeapRootRENode where
  root : HeapRENodeK
  child_nodes : List (RENodeId × HeapRENodeK)
deriving DecidableEq, Repr

/-- `RENodePointer`: `Heap { frame_id, .. }` or `Store` (the root/id payload
of the heap pointer is irrelevant to the claims). -/
inductive RENodePointer
| Heap (frame_id : Nat)
| Store
deriving DecidableEq, Repr

/-- Modelled from the spec: `CallFrame` (§4.4; `call_frame.rs` is not in
the sources). Fields beyond the claims (held locks, auth zone) are
omitted. -/
structure CallFrame where
  depth : Nat
  owned_heap_nodes : List (RENodeId × HeapRootRENode)
  node_refs : List (RENodeId × RENodePointer)
deriving DecidableEq, Repr

/-- `TypeName` (`scrypto::core`): the function-invocation target (the
suffix avoids a clash with a name already in the library's root
namespace). -/
inductive TypeNameK
| TransactionProcessor
| Package
| ResourceManager
| Blueprint (package_address : Nat) (blueprint_name : Nat)
deriving DecidableEq, Repr

/-- `Receiver` (`scrypto::core`): the method-invocation target. -/
inductive Receiver
| Consumed (id : RENodeId)
| NativeRENodeRef (id : RENodeId)
| AuthZoneRef
| Component (addr : Nat)
deriving DecidableEq, Repr

/-- Modelled from the spec: `ScryptoValue` (the scrypto value crate is not
in the sources) as the decoded views the kernel reads from a payload:
the referenced bucket/proof/vault/kv-store ids and the referenced global
component addresses (§4.8 step 2 "Argument scan"). -/
structure ScryptoValue where
  bucket_ids : List Nat
  proof_ids : List Nat
  vault_ids : List (List Nat)
  kv_store_ids : List (List Nat)
  refed_component_addresses : List Nat
deriving DecidableEq, Repr

/-- `ScryptoValue::node_ids()`: every owned node id referenced in the
payload. -/
def ScryptoValue.node_ids (v : ScryptoValue) : List RENodeId :=
  v.bucket_ids.map RENodeId.Bucket ++ v.proof_ids.map RENodeId.Proof ++
  v.vault_ids.map RENodeId.Vault ++ v.kv_store_ids.map RENodeId.KeyValueStore

/-- `SubstateId` of the kernel revision (only the variants `node_globalize`
constructs). -/
inductive SubstateIdK
| ComponentInfo (addr : Nat)
| ComponentState (addr : Nat)
| Package (addr : Nat)
| ResourceManager (addr : Nat)
deriving DecidableEq, Repr

/-- `Substate` of the kernel revision (payloads omitted). -/
inductive SubstateK
| Component
| ComponentState
| Package
| Resource
deriving DecidableEq, Repr

/-- `Kernel` (`kernel.rs` lines 33-70): the fields the claims touch — the
max call depth, the fee reserve with its fee-table constants, the call
frames and the track write buffer. -/
structure Kernel where
  max_depth : Nat
  fee_reserve : Nat
  fee_invoke_function : Nat
  fee_run_function : Nat
  fee_invoke_method : Nat
  fee_run_method : Nat
  fee_globalize : Nat
  call_frames : List CallFrame
  track : List (SubstateIdK × SubstateK)
deriving DecidableEq, Repr

/-- Modelled from the spec: `FeeReserve::consume` (§4.9): consume cost
units, failing with `CostingError` on exhaustion. -/
def consume (reserve cost : Nat) : Except RuntimeError Nat :=
  if cost ≤ reserve then .ok (reserve - cost) else .error .CostingError

/-- `Kernel::process_call_data`, `kernel.rs` lines 110-118. -/
def process_call_data (validated : ScryptoValue) : Except RuntimeError Unit :=
  if validated.kv_store_ids.isEmpty = false then .error .KeyValueStoreNotAllowed
  else if validated.vault_ids.isEmpty = false then .error .VaultNotAllowed
  else .ok ()

/-- `Kernel::process_return_data`, `kernel.rs` lines 120-128: only
key-value stores are rejected; the vault check is absent (the source keeps
it as an open TODO). -/
def process_return_data (validated : ScryptoValue) : Except RuntimeError Unit :=
  if validated.kv_store_ids.isEmpty = false then .error .KeyValueStoreNotAllowed
  else .ok ()

/-- Modelled from the spec: `verify_can_move` at the frame boundary for the
kernel revision's nodes (§4.4: "buckets unlocked, proofs unrestricted"). -/
def HeapRENodeK.verify_can_move : HeapRENodeK → Except RuntimeError Unit
| .Bucket b => if b.is_locked then .error .CantMoveLockedBucket else .ok ()
| .Proof p => if p.is_restricted then .error .CantMoveRestrictedProof else .ok ()
| _ => .ok ()

/-- Modelled from the spec: `verify_can_persist` for the kernel revision's
nodes (persistable: vaults, key-value stores, components). -/
def HeapRENodeK.verify_can_persist : HeapRENodeK → Except RuntimeError Unit
| .Vault => .ok ()
| .KeyValueStore => .ok ()
| .Component => .ok ()
| _ => .error .ValueNotAllowed

/-- `HashMap::remove` on an owned-node map: drop the key. -/
def removeKey {α : Type} (owned : List (RENodeId × α)) (id : RENodeId) :
    List (RENodeId × α) :=
  owned.filter (fun p => decide (p.1 ≠ id))

/-- Modelled from the spec: `CallFrame::take_available_values` (§4.4
`new_child_from_parent`; `call_frame.rs` is not in the sources). Walks the
requested ids; an id not in the owned set is reported in `missing`; an
owned node is checked with `verify_can_move` (and, when `persist` is set,
`verify_can_persist`), removed from the owned set and collected in `taken`.
Returns (remaining owned set, taken, missing). -/
def takeAvail (owned : List (RENodeId × HeapRootRENode)) (ids : List RENodeId)
    (persist : Bool) :
    Except RuntimeError
      (List (RENodeId × HeapRootRENode) × List (RENodeId × HeapRootRENode) × List RENodeId) :=
  match ids with
  | [] => .ok (owned, [], [])
  | id :: rest =>
    match alookup owned id with
    | none =>
      match takeAvail owned rest persist with
      | .error e => .error e
      | .ok (owned', taken, missing) => .ok (owned', taken, id :: missing)
    | some node =>
      match node.root.verify_can_move with
      | .error e => .error e
      | .ok _ =>
        match (if persist then node.root.verify_can_persist else .ok ()) with
        | .error e => .error e
        | .ok _ =>
          match takeAvail (removeKey owned id) rest persist with
          | .error e => .error e
          | .ok (owned', taken, missing) => .ok (owned', (id, node) :: taken, missing)

/-- The "internal state update to taken values" loop (`kernel.rs` lines
507-514 and 697-704): every taken proof is transitioned to restricted. -/
def restrictProofs (taken : List (RENodeId × HeapRootRENode)) :
    List (RENodeId × HeapRootRENode) :=
  taken.map (fun pr =>
    (pr.1, { pr.2 with root :=
      match pr.2.root with
      | .Proof p => .Proof p.change_to_restricted
      | r => r }))

/-- The argument-reference pass-through loop (`kernel.rs` lines 586-599 and
1017-1030): every referenced component address must be visible in the
caller's `node_refs`, else `InvokeMethodInvalidReferencePass`. -/
def passRefs (node_refs : List (RENodeId × RENodePointer)) (addrs : List Nat) :
    Except RuntimeError (List (RENodeId × RENodePointer)) :=
  match addrs with
  | [] => .ok []
  | a :: rest =>
    match alookup node_refs (.Component a) with
    | some ptr =>
      match passRefs node_refs rest with
      | .error e => .error e
      | .ok l => .ok ((RENodeId.Component a, ptr) :: l)
    | none => .error (.InvokeMethodInvalidReferencePass (.Component a))

/-- Pointer resolution for a method receiver (`kernel.rs` lines 762-785 and
917-933): an owned node resolves to a heap pointer at the current depth, a
visible reference resolves to its pointer, and (for native receivers only)
resource managers and the system node fall back to a store pointer;
otherwise `InvokeMethodInvalidReceiver`. -/
def resolvePointer (cur : CallFrame) (node_id : RENodeId) (globalFallback : Bool) :
    Except RuntimeError RENodePointer :=
  if (alookup cur.owned_heap_nodes node_id).isSome then .ok (.Heap cur.depth)
  else
    match alookup cur.node_refs node_id with
    | some p => .ok p
    | none =>
      if globalFallback then .ok .Store
      else .error (.InvokeMethodInvalidReceiver node_id)

/-- The receiver-resolution block of `invoke_method` (`kernel.rs` lines
710-1015), restricted to its frame-visible effects: a `Consumed` receiver
is removed from the caller's owned set (else `RENodeNotFound`) and handed
to the callee unchanged; reference receivers resolve to a node pointer that
becomes a node ref of the child frame. Substate lock acquisition and the
authorization checks (`AuthModule`, not in the sources) are elided: they
only decide whether the push happens, never what is pushed. Returns the
updated current frame, the owned nodes the receiver adds to the callee, and
the node refs it adds. -/
def resolveReceiver (cur : CallFrame) (receiver : Receiver) :
    Except RuntimeError
      (CallFrame × List (RENodeId × HeapRootRENode) × List (RENodeId × RENodePointer)) :=
  match receiver with
  | .Consumed node_id =>
    match alookup cur.owned_heap_nodes node_id with
    | none => .error (.RENodeNotFound node_id)
    | some heap_node =>
      .ok ({ cur with owned_heap_nodes := removeKey cur.owned_heap_nodes node_id },
           [(node_id, heap_node)], [])
  | .NativeRENodeRef node_id =>
    match node_id with
    | .Bucket _ | .Proof _ | .ResourceManager _ | .System | .Worktop
    | .Component _ | .Vault _ =>
      (match resolvePointer cur node_id
          (match node_id with
           | .ResourceManager _ | .System => true
           | _ => false) with
       | .error e => .error e
       | .ok ptr => .ok (cur, [], [(node_id, ptr)]))
    | _ => .error .MethodDoesNotExist
  | .AuthZoneRef => .ok (cur, [], [])
  | .Component addr =>
    match resolvePointer cur (.Component addr) false with
    | .error e => .error e
    | .ok ptr => .ok (cur, [], [(RENodeId.Component addr, ptr)])

/-- `Kernel::invoke_function`, `kernel.rs` lines 456-613, modelled up to the
child-frame push: the depth check `call_frames.len() == max_depth`, the two
cost consumptions, `process_call_data`, taking the argument nodes (first
missing id fails with `RENodeNotFound`), restricting taken proofs, the
reference pass (root frame: referenced components become store refs; the
transaction-processor instruction scan of lines 567-577 adds further store
refs of the same shape and is elided; non-root: references must be visible),
and the push of the child frame. The actor resolution of lines 519-556
(package lock and ABI validation for blueprints) is elided: it only decides
whether the push happens, never the shape of the pushed frame. -/
def invoke_function (k : Kernel) (_type_name : TypeNameK) (input : ScryptoValue) :
    Kernel × Option RuntimeError :=
  if k.call_frames.length = k.max_depth then (k, some .MaxCallDepthLimitReached) else
  match consume k.fee_reserve k.fee_invoke_function with
  | .error e => (k, some e)
  | .ok r1 =>
  match consume r1 k.fee_run_function with
  | .error e => ({ k with fee_reserve := r1 }, some e)
  | .ok r2 =>
  let k1 := { k with fee_reserve := r2 }
  match process_call_data input with
  | .error e => (k1, some e)
  | .ok _ =>
  match k1.call_frames.getLast? with
  | none => (k1, some .Unreachable)
  | some cur =>
  match takeAvail cur.owned_heap_nodes input.node_ids false with
  | .error e => (k1, some e)
  | .ok (owned', taken, missing) =>
  let cur' := { cur with owned_heap_nodes := owned' }
  let k2 := { k1 with call_frames := k1.call_frames.dropLast ++ [cur'] }
  match missing with
  | m :: _ => (k2, some (.RENodeNotFound m))
  | [] =>
  match (if k1.call_frames.length = 1
         then .ok (input.refed_component_addresses.map
                     (fun a => (RENodeId.Component a, RENodePointer.Store)))
         else passRefs cur.node_refs input.refed_component_addresses) with
  | .error e => (k2, some e)
  | .ok next_refs =>
  let child : CallFrame := ⟨cur.depth + 1, restrictProofs taken, next_refs⟩
  ({ k2 with call_frames := k2.call_frames ++ [child] }, none)

/-- `Kernel::invoke_method`, `kernel.rs` lines 646-1047, modelled up to the
child-frame push: the depth check `current_frame.depth == max_depth`, the
two cost consumptions, `process_call_data`, taking the argument nodes,
restricting taken proofs, receiver resolution (`resolveReceiver`), the
argument reference pass, and the push of the child frame. -/
def invoke_method (k : Kernel) (receiver : Receiver) (input : ScryptoValue) :
    Kernel × Option RuntimeError :=
  match k.call_frames.getLast? with
  | none => (k, some .Unreachable)
  | some cur0 =>
  if cur0.depth = k.max_depth then (k, some .MaxCallDepthLimitReached) else
  match consume k.fee_reserve k.fee_invoke_method with
  | .error e => (k, some e)
  | .ok r1 =>
  match consume r1 k.fee_run_method with
  | .error e => ({ k with fee_reserve := r1 }, some e)
  | .ok r2 =>
  let k1 := { k with fee_reserve := r2 }
  match process_call_data input with
  | .error e => (k1, some e)
  | .ok _ =>
  match takeAvail cur0.owned_heap_nodes input.node_ids false with
  | .error e => (k1, some e)
  | .ok (owned', taken, missing) =>
  let cur1 := { cur0 with owned_heap_nodes := owned' }
  let k2 := { k1 with call_frames := k1.call_frames.dropLast ++ [cur1] }
  match missing with
  | m :: _ => (k2, some (.RENodeNotFound m))
  | [] =>
  match resolveReceiver cur1 receiver with
  | .error e => (k2, some e)
  | .ok (cur2, consumed_add, recv_refs) =>
  let k3 := { k2 with call_frames := k2.call_frames.dropLast ++ [cur2] }
  match passRefs cur2.node_refs input.refed_component_addresses with
  | .error e => (k3, some e)
  | .ok arg_refs =>
  let child : CallFrame := ⟨cur2.depth + 1, restrictProofs taken ++ consumed_add,
                            recv_refs ++ arg_refs⟩
  ({ k3 with call_frames := k3.call_frames ++ [child] }, none)

/-- The substates a globalized root node contributes (`kernel.rs` lines
1392-1427): the match is on the taken root node, with the node id converted
by `Into` (which panics when the id kind does not fit the node kind, hence
the pair match); every other root kind hits `panic!("Not expected")`. -/
def substatesOf (node_id : RENodeId) (root : HeapRENodeK) :
    Option (List (SubstateIdK × SubstateK)) :=
  match node_id, root with
  | .Component addr, .Component =>
    some [(.ComponentInfo addr, .Component), (.ComponentState addr, .ComponentState)]
  | .Package addr, .Package => some [(.Package addr, .Package)]
  | .ResourceManager addr, .Resource => some [(.ResourceManager addr, .Resource)]
  | _, _ => none

/-- `Kernel::node_globalize`, `kernel.rs` lines 1364-1457: consume the
globalize cost, reject ids failing `can_globalize` (before anything is
taken from the frame), take the node from the current frame (the source
`assert!`s that it was owned, modelled as `Unreachable`), convert the root
into substates (`substatesOf`; the `panic!("Not expected")` arm is
`Unreachable`), record them in Track (`create_uuid_substate`), and give the
frame a `Store` reference to the new global node. The draining of child
nodes through `insert_non_root_nodes` (not in the sources) and the
non-fungible bookkeeping are elided. -/
def node_globalize (k : Kernel) (node_id : RENodeId) : Kernel × Option RuntimeError :=
  match consume k.fee_reserve k.fee_globalize with
  | .error e => (k, some e)
  | .ok r =>
  let k1 := { k with fee_reserve := r }
  if RENodeProperties.can_globalize node_id = false then
    (k1, some (.RENodeGlobalizeTypeNotAllowed node_id)) else
  match k1.call_frames.getLast? with
  | none => (k1, some .Unreachable)
  | some cur =>
  match takeAvail cur.owned_heap_nodes [node_id] false with
  | .error e => (k1, some e)
  | .ok (owned', taken, missing) =>
  let cur' := { cur with owned_heap_nodes := owned' }
  let k2 := { k1 with call_frames := k1.call_frames.dropLast ++ [cur'] }
  match missing with
  | _ :: _ => (k2, some .Unreachable)
  | [] =>
  match taken with
  | [(_, root_node)] =>
    (match substatesOf node_id root_node.root with
     | none => (k2, some .Unreachable)
     | some substates =>
       let cur'' := { cur' with node_refs := (node_id, RENodePointer.Store) :: cur'.node_refs }
       ({ k2 with
            track := substates ++ k2.track,
            call_frames := k2.call_frames.dropLast ++ [cur''] }, none))
  | _ => (k2, some .Unreachable)

/-! ## Theorems -/

/-- C1 counterexample: the claim says an empty bucket passes `try_drop`,
but `values.rs` line 243 rejects every bucket unconditionally — the empty
bucket is refused with `DropFailure::Bucket`. (The source also accepts
restricted proofs, which the claim excludes.) -/
theorem try_drop_empty_bucket_fails :
    BucketM.is_empty ⟨0, 0⟩ = true ∧
    RENode.try_drop (RENode.Bucket ⟨0, 0⟩) = Except.error DropFailure.Bucket := by
  exact ⟨rfl, rfl⟩

/-- C1 (amended): dropping an owned node at frame end succeeds exactly when
the node is a proof (restricted or not) or an empty worktop; every bucket —
empty included — fails with `DropFailure::Bucket`, a non-empty worktop with
`DropFailure::Worktop`, and vaults, key-value stores, components, packages
and resource managers fail with their respective resource-leak kinds. -/
theorem try_drop_characterization (n : RENode) (b : BucketM) (w : WorktopM) :
    (RENode.try_drop n = Except.ok () ↔
      (∃ p, n = RENode.Proof p) ∨ (∃ w0, n = RENode.Worktop w0 ∧ w0.total = 0)) ∧
    RENode.try_drop (RENode.Bucket b) = Except.error DropFailure.Bucket ∧
    (w.total ≠ 0 → RENode.try_drop (RENode.Worktop w) = Except.error DropFailure.Worktop) ∧
    RENode.try_drop RENode.Vault = Except.error DropFailure.Vault ∧
    RENode.try_drop RENode.KeyValueStore = Except.error DropFailure.KeyValueStore ∧
    RENode.try_drop RENode.Component = Except.error DropFailure.Component ∧
    RENode.try_drop RENode.Package = Except.error DropFailure.Package ∧
    RENode.try_drop RENode.Resource = Except.error DropFailure.Resource ∧
    RENode.try_drop RENode.NonFungibles = Except.error DropFailure.Resource := by
  refine ⟨?_, rfl, ?_, rfl, rfl, rfl, rfl, rfl, rfl⟩
  · cases n <;> simp [RENode.try_drop, ProofM.drop, WorktopM.drop]
  · intro h
    simp [RENode.try_drop, WorktopM.drop, h]

theorem try_drop_characterization_witness :
    ((3 : Nat) ≠ 0 →
      RENode.try_drop (RENode.Worktop ⟨3⟩) = Except.error DropFailure.Worktop) ∧
    (RENode.try_drop (RENode.Proof ⟨true⟩) = Except.ok () ↔
      (∃ p, RENode.Proof ⟨true⟩ = RENode.Proof p) ∨
      (∃ w0, RENode.Proof ⟨true⟩ = RENode.Worktop w0 ∧ w0.total = 0)) :=
  ⟨(try_drop_characterization (RENode.Proof ⟨true⟩) ⟨0, 0⟩ ⟨3⟩).2.2.1,
   (try_drop_characterization (RENode.Proof ⟨true⟩) ⟨0, 0⟩ ⟨3⟩).1⟩

/-- C5: `verify_can_move` fails with `CantMoveLockedBucket` exactly on
buckets with a positive lock count, with `CantMoveRestrictedProof` exactly
on restricted proofs, and succeeds on every other node. -/
theorem verify_can_move_characterization (n : RENode) :
    (n.verify_can_move = Except.error RuntimeError.CantMoveLockedBucket ↔
      ∃ b, n = RENode.Bucket b ∧ 0 < b.locked) ∧
    (n.verify_can_move = Except.error RuntimeError.CantMoveRestrictedProof ↔
      ∃ p, n = RENode.Proof p ∧ p.restricted = true) ∧
    (n.verify_can_move = Except.ok () ↔
      (∀ b, n = RENode.Bucket b → b.locked = 0) ∧
      (∀ p, n = RENode.Proof p → p.restricted = false)) := by
  cases n <;>
    simp [RENode.verify_can_move, BucketM.is_locked, ProofM.is_restricted]
  case Bucket b =>
    by_cases h : b.locked = 0 <;> simp [h, Nat.pos_of_ne_zero]
  case Proof p =>
    by_cases h : p.restricted <;> simp [h]

theorem verify_can_move_characterization_witness :
    RENode.verify_can_move (RENode.Bucket ⟨5, 2⟩) =
        Except.error RuntimeError.CantMoveLockedBucket ∧
    RENode.verify_can_move (RENode.Proof ⟨true⟩) =
        Except.error RuntimeError.CantMoveRestrictedProof ∧
    RENode.verify_can_move (RENode.Bucket ⟨5, 0⟩) = Except.ok () :=
  ⟨(verify_can_move_characterization (RENode.Bucket ⟨5, 2⟩)).1.mpr
      ⟨⟨5, 2⟩, rfl, by decide⟩,
   (verify_can_move_characterization (RENode.Proof ⟨true⟩)).2.1.mpr
      ⟨⟨true⟩, rfl, rfl⟩,
   (verify_can_move_characterization (RENode.Bucket ⟨5, 0⟩)).2.2.mpr
      ⟨fun b hb => by cases hb; rfl, fun p hp => by cases hp⟩⟩

/-- C9: bucket and vault identifiers round-trip through their fixed-byte
wire formats — a bucket's 4 little-endian bytes decode back to the bucket,
decoding succeeds exactly on length-4 slices (as a little-endian u32) and
returns `InvalidLength` otherwise; a vault's 36 bytes decode back to the
vault, decoding succeeds exactly on length-36 slices and returns
`InvalidLength` otherwise. -/
theorem bucket_vault_wire_roundtrip (b : Bucket) (v : Vault) (s s2 : List Nat)
    (hb : b.id < 4294967296) (hv : v.id.length = 36) :
    Bucket.try_from b.to_vec = Except.ok b ∧
    ((∃ r, Bucket.try_from s = Except.ok r) ↔ s.length = 4) ∧
    (s.length = 4 → Bucket.try_from s = Except.ok ⟨u32_from_le_bytes s⟩) ∧
    (s.length ≠ 4 →
      Bucket.try_from s = Except.error (ParseBucketError.InvalidLength s.length)) ∧
    Vault.try_from v.to_vec = Except.ok v ∧
    ((∃ r, Vault.try_from s2 = Except.ok r) ↔ s2.length = 36) ∧
    (s2.length ≠ 36 →
      Vault.try_from s2 = Except.error (ParseVaultError.InvalidLength s2.length)) := by
  refine ⟨?_, ?_, ?_, ?_, ?_, ?_, ?_⟩
  · have hlen : (Bucket.to_vec b).length = 4 := rfl
    have hval : u32_from_le_bytes (Bucket.to_vec b) = b.id := by
      simp only [Bucket.to_vec, u32_from_le_bytes]
      omega
    simp [Bucket.try_from, hlen, hval]
  · by_cases h : s.length = 4 <;> simp [Bucket.try_from, h]
  · intro h; simp [Bucket.try_from, h]
  · intro h; simp [Bucket.try_from, h]
  · simp [Vault.try_from, Vault.to_vec, hv]
  · by_cases h : s2.length = 36 <;> simp [Vault.try_from, h]
  · intro h; simp [Vault.try_from, h]

theorem bucket_vault_wire_roundtrip_witness :
    (7 : Nat) < 4294967296 ∧ (List.replicate 36 (0 : Nat)).length = 36 ∧
    Bucket.try_from (Bucket.to_vec ⟨7⟩) = Except.ok ⟨7⟩ ∧
    Vault.try_from (Vault.to_vec ⟨List.replicate 36 0⟩) =
      Except.ok ⟨List.replicate 36 0⟩ ∧
    Bucket.try_from [1, 2, 3] = Except.error (ParseBucketError.InvalidLength 3) :=
  ⟨by decide, by simp,
   (bucket_vault_wire_roundtrip ⟨7⟩ ⟨List.replicate 36 0⟩ [1, 2, 3] []
      (by decide) (by simp)).1,
   (bucket_vault_wire_roundtrip ⟨7⟩ ⟨List.replicate 36 0⟩ [1, 2, 3] []
      (by decide) (by simp)).2.2.2.2.1,
   (bucket_vault_wire_roundtrip ⟨7⟩ ⟨List.replicate 36 0⟩ [1, 2, 3] []
      (by decide) (by simp)).2.2.2.1 (by decide)⟩

theorem alookup_cons {α : Type} (k : RENodeId) (v : α) (xs : List (RENodeId × α))
    (id : RENodeId) :
    alookup ((k, v) :: xs) id = if k = id then some v else alookup xs id := rfl

theorem alookup_map_modify (l : List (RENodeId × HeapRENode)) (k : RENodeId)
    (ids : List RENodeId) :
    alookup (l.map (fun p =>
        if p.1 = k then (p.1, { p.2 with child_nodes := p.2.child_nodes ++ ids })
        else p)) k =
      (alookup l k).map (fun n => { n with child_nodes := n.child_nodes ++ ids }) := by
  induction l with
  | nil => rfl
  | cons x xs ih =>
    obtain ⟨a, b⟩ := x
    by_cases hx : a = k
    · subst hx
      simp [alookup_cons]
    · simp [alookup_cons, hx, ih]

/-- C7: `add_child_nodes` fails with `RENodeNotOwned` when some child id is
not heap-resident, leaving the heap unchanged; when every child id is
heap-resident and the parent exists, it succeeds and the parent's child-node
set afterwards contains every requested child id. -/
theorem add_child_nodes_spec (h : Heap) (ids : List RENodeId) (parent : RENodeId) :
    ((∃ id ∈ ids, h.lookupNode id = none) →
      (h.add_child_nodes ids parent).1 = h ∧
      ∃ id, id ∈ ids ∧ h.lookupNode id = none ∧
        (h.add_child_nodes ids parent).2 = some (CallFrameError.RENodeNotOwned id)) ∧
    ((∀ id ∈ ids, (h.lookupNode id).isSome) →
      ∀ node, h.lookupNode parent = some node →
        (h.add_child_nodes ids parent).2 = none ∧
        ∃ node', (h.add_child_nodes ids parent).1.lookupNode parent = some node' ∧
          ∀ id ∈ ids, id ∈ node'.child_nodes) := by
  constructor
  · rintro ⟨id0, hid0, hnone⟩
    have hfind : (ids.find? (fun id => (h.lookupNode id).isNone)).isSome := by
      rw [List.find?_isSome]
      exact ⟨id0, hid0, by simp [hnone]⟩
    obtain ⟨idf, hf⟩ := Option.isSome_iff_exists.mp hfind
    have hmem := List.mem_of_find?_eq_some hf
    have hprop := List.find?_some hf
    refine ⟨?_, idf, hmem, Option.isNone_iff_eq_none.mp hprop, ?_⟩ <;>
      simp only [Heap.add_child_nodes, hf]
  · intro hall node hparent
    have hfind : ids.find? (fun id => (h.lookupNode id).isNone) = none := by
      apply List.find?_eq_none.mpr
      intro x hx
      have := hall x hx
      simp only [Option.isNone_iff_eq_none]
      intro hc
      rw [hc] at this
      exact absurd this (by simp)
    refine ⟨?_, ?_⟩
    · simp only [Heap.add_child_nodes, hfind, hparent]
    · refine ⟨{ node with child_nodes := node.child_nodes ++ ids }, ?_, ?_⟩
      · simp only [Heap.add_child_nodes, hfind, hparent]
        show alookup (h.nodes.map (fun p =>
          if p.1 = parent then
            (p.1, { p.2 with child_nodes := p.2.child_nodes ++ ids })
          else p)) parent = _
        rw [alookup_map_modify]
        rw [show alookup h.nodes parent = some node from hparent]
        rfl
      · intro id hid
        exact List.mem_append_right _ hid

theorem add_child_nodes_spec_witness :
    (∀ id ∈ ([RENodeId.Bucket 1] : List RENodeId),
        ((Heap.mk [(RENodeId.Bucket 1, ⟨⟨[]⟩, []⟩), (RENodeId.Worktop, ⟨⟨[]⟩, []⟩)]).lookupNode
          id).isSome) ∧
    ((Heap.mk [(RENodeId.Bucket 1, ⟨⟨[]⟩, []⟩),
        (RENodeId.Worktop, ⟨⟨[]⟩, []⟩)]).add_child_nodes [RENodeId.Bucket 1]
        RENodeId.Worktop).2 = none := by
  have hall : ∀ id ∈ ([RENodeId.Bucket 1] : List RENodeId),
      ((Heap.mk [(RENodeId.Bucket 1, ⟨⟨[]⟩, []⟩),
        (RENodeId.Worktop, ⟨⟨[]⟩, []⟩)]).lookupNode id).isSome := by decide
  refine ⟨hall, ?_⟩
  exact ((add_child_nodes_spec
    (Heap.mk [(RENodeId.Bucket 1, ⟨⟨[]⟩, []⟩), (RENodeId.Worktop, ⟨⟨[]⟩, []⟩)])
    [RENodeId.Bucket 1] RENodeId.Worktop).2 hall ⟨⟨[]⟩, []⟩ (by decide)).1

theorem alookup_filter_ne {α : Type} (l : List (RENodeId × α)) (id x : RENodeId) :
    alookup (l.filter (fun p => decide (p.1 ≠ id))) x =
      if x = id then none else alookup l x := by
  induction l with
  | nil => by_cases hx : x = id <;> simp [alookup, hx]
  | cons q rest ih =>
    obtain ⟨a, b⟩ := q
    simp only [decide_not] at ih ⊢
    by_cases ha : a = id
    · subst ha
      by_cases hx : x = a
      · subst hx
        simp [List.filter_cons, alookup_cons, ih]
      · simp [List.filter_cons, alookup_cons, ih, hx, Ne.symm hx]
    · by_cases hx : x = id
      · subst hx
        simp [List.filter_cons, alookup_cons, ha, ih, Ne.symm ha]
      · simp [List.filter_cons, alookup_cons, ha, hx, ih]

theorem alookup_removeKey {α : Type} (l : List (RENodeId × α)) (id x : RENodeId) :
    alookup (removeKey l id) x = if x = id then none else alookup l x :=
  alookup_filter_ne l id x

theorem foldl_insert_mem (nid : RENodeId) (l : List (SubstateOffset × Substate)) :
    ∀ t : Track,
      (∀ e ∈ t.substates,
        e ∈ (l.foldl (fun acc p => acc.insert_substate ⟨nid, p.1⟩ p.2) t).substates) ∧
      (∀ p ∈ l,
        (SubstateIdL.mk nid p.1, p.2) ∈
          (l.foldl (fun acc p => acc.insert_substate ⟨nid, p.1⟩ p.2) t).substates) := by
  induction l with
  | nil => intro t; exact ⟨fun e he => he, by simp⟩
  | cons q qs ih =>
    intro t
    constructor
    · intro e he
      simp only [List.foldl_cons]
      exact (ih _).1 e (List.mem_cons_of_mem _ he)
    · intro p hp
      simp only [List.foldl_cons]
      rcases List.mem_cons.mp hp with rfl | hmem
      · exact (ih _).1 _ (List.mem_cons_self _ _)
      · exact (ih _).2 p hmem

theorem reachFrom_nil {h : Heap} {x : RENodeId} (hr : ReachFrom h [] x) : False := by
  induction hr with
  | seed hs => simp at hs
  | step _ _ _ ih => exact ih

theorem removeNode_eq {h : Heap} {id : RENodeId} {node : HeapRENode} {h1 : Heap}
    (hr : h.removeNode id = some (node, h1)) :
    h.lookupNode id = some node ∧
    h1 = Heap.mk (h.nodes.filter (fun p => decide (p.1 ≠ id))) := by
  unfold Heap.removeNode at hr
  cases hl : h.lookupNode id with
  | none => rw [hl] at hr; exact absurd hr (by simp)
  | some w =>
    rw [hl] at hr
    simp only [Option.some.injEq, Prod.mk.injEq] at hr
    exact ⟨congrArg some hr.1, hr.2.symm⟩

theorem reachFrom_shift {h : Heap} {id : RENodeId} {node : HeapRENode}
    {rest : List RENodeId} (hid : h.lookupNode id = some node) {x : RENodeId}
    (hr : ReachFrom h (id :: rest) x) :
    x = id ∨
      ReachFrom (Heap.mk (h.nodes.filter (fun p => decide (p.1 ≠ id))))
        (node.child_nodes ++ rest) x := by
  induction hr with
  | seed hs =>
    rcases List.mem_cons.mp hs with rfl | hm
    · exact Or.inl rfl
    · exact Or.inr (ReachFrom.seed (List.mem_append_right _ hm))
  | @step x0 y0 n0 hx hlx hy ih =>
    rcases ih with rfl | hreach
    · have hn := hlx.symm.trans hid
      simp only [Option.some.injEq] at hn
      exact Or.inr (ReachFrom.seed (List.mem_append_left _ (hn ▸ hy)))
    · by_cases hxid : x0 = id
      · subst hxid
        have hn := hlx.symm.trans hid
        simp only [Option.some.injEq] at hn
        exact Or.inr (ReachFrom.seed (List.mem_append_left _ (hn ▸ hy)))
      · have hl1 : (Heap.mk (h.nodes.filter
            (fun p => decide (p.1 ≠ id)))).lookupNode x0 = some n0 := by
          show alookup _ x0 = _
          rw [alookup_filter_ne, if_neg hxid]
          exact hlx
        exact Or.inr (ReachFrom.step hreach hl1 hy)

theorem lookupNode_filter (h : Heap) (id x : RENodeId) :
    (Heap.mk (h.nodes.filter (fun p => decide (p.1 ≠ id)))).lookupNode x =
      if x = id then none else h.lookupNode x :=
  alookup_filter_ne h.nodes id x

theorem movePending_ok :
    ∀ (h : Heap) (t : Track) (pending : List RENodeId) (h' : Heap) (t' : Track),
      movePending h t pending = (h', t', none) →
      (∀ x v, h'.lookupNode x = some v → h.lookupNode x = some v) ∧
      (∀ e ∈ t.substates, e ∈ t'.substates) ∧
      (∀ x, ReachFrom h pending x →
        h'.lookupNode x = none ∧
        ∃ n, h.lookupNode x = some n ∧
          ∀ p ∈ node_to_substates n.root,
            (SubstateIdL.mk x p.1, p.2) ∈ t'.substates) := by
  intro h t pending
  induction h, t, pending using movePending.induct with
  | case1 h t =>
    intro h' t' heq
    simp only [movePending, Prod.mk.injEq] at heq
    obtain ⟨rfl, rfl, -⟩ := heq
    exact ⟨fun x v hv => hv, fun e he => he, fun x hx => (reachFrom_nil hx).elim⟩
  | case2 h t id rest hr =>
    intro h' t' heq
    simp only [movePending] at heq
    split at heq
    · exact absurd heq (by simp)
    · rename_i node1 h1 hm
      rw [hr] at hm
      exact absurd hm (by simp)
  | case3 h t id rest node h1 hr hlt tfold ih =>
    intro h' t' heq
    obtain ⟨hlook, h1eq⟩ := removeNode_eq hr
    simp only [movePending] at heq
    split at heq
    · rename_i hm
      rw [hr] at hm
      exact absurd hm (by simp)
    · rename_i node2 h2 hm
      rw [hr] at hm
      simp only [Option.some.injEq, Prod.mk.injEq] at hm
      obtain ⟨rfl, rfl⟩ := hm
      obtain ⟨hsub1, htr1, hreach1⟩ := ih h' t' heq
      subst h1eq
      refine ⟨?_, ?_, ?_⟩
      · intro x v hv
        have h1x := hsub1 x v hv
        rw [lookupNode_filter] at h1x
        by_cases hx : x = id
        · rw [if_pos hx] at h1x; exact absurd h1x (by simp)
        · rw [if_neg hx] at h1x; exact h1x
      · intro e he
        exact htr1 e ((foldl_insert_mem id (node_to_substates node.root) t).1 e he)
      · intro x hx
        rcases reachFrom_shift hlook hx with rfl | hreach
        · refine ⟨?_, node, hlook, ?_⟩
          · cases hv : h'.lookupNode x with
            | none => rfl
            | some v =>
              have h1x := hsub1 _ _ hv
              rw [lookupNode_filter, if_pos rfl] at h1x
              exact absurd h1x (by simp)
          · intro p hp
            exact htr1 _ ((foldl_insert_mem x (node_to_substates node.root) t).2 p hp)
        · obtain ⟨hnone, n, hln, hsubst⟩ := hreach1 x hreach
          rw [lookupNode_filter] at hln
          by_cases hxid : x = id
          · rw [if_pos hxid] at hln; exact absurd hln (by simp)
          · rw [if_neg hxid] at hln
            exact ⟨hnone, n, hln, hsubst⟩

/-- C6: when `move_node_to_store` succeeds, neither the moved node id nor
any id transitively reachable from it through child-node sets remains in
the heap, and each drained node's substates have been inserted into Track
keyed by `SubstateId(node id, offset)`; when the node id is absent the call
fails with `RENodeNotOwned` and heap and track are unchanged. -/
theorem move_node_to_store_spec (h : Heap) (t : Track) (node_id : RENodeId)
    (h' : Heap) (t' : Track) :
    (h.move_node_to_store t node_id = (h', t', none) →
      ∀ x, ReachFrom h [node_id] x →
        h'.lookupNode x = none ∧
        ∃ n, h.lookupNode x = some n ∧
          ∀ p ∈ node_to_substates n.root,
            (SubstateIdL.mk x p.1, p.2) ∈ t'.substates) ∧
    (h.lookupNode node_id = none →
      h.move_node_to_store t node_id =
        (h, t, some (CallFrameError.RENodeNotOwned node_id))) := by
  constructor
  · intro heq
    exact (movePending_ok h t [node_id] h' t' heq).2.2
  · intro hnone
    have hrm : h.removeNode node_id = none := by
      unfold Heap.removeNode
      rw [hnone]
    simp only [Heap.move_node_to_store, movePending]
    split
    · rfl
    · rename_i node1 h1 hm
      rw [hrm] at hm
      exact absurd hm (by simp)

theorem move_node_to_store_spec_witness :
    ((Heap.mk [(RENodeId.Worktop, ⟨⟨[(0, 5)]⟩, [RENodeId.Bucket 2]⟩),
        (RENodeId.Bucket 2, ⟨⟨[(1, 7)]⟩, []⟩)]).move_node_to_store ⟨[]⟩
          RENodeId.Worktop =
      (Heap.mk [],
       Track.mk [(⟨RENodeId.Bucket 2, 1⟩, 7), (⟨RENodeId.Worktop, 0⟩, 5)], none)) ∧
    ((Heap.mk []).lookupNode (RENodeId.Bucket 2) = none ∧
      ∃ n, (Heap.mk [(RENodeId.Worktop, ⟨⟨[(0, 5)]⟩, [RENodeId.Bucket 2]⟩),
          (RENodeId.Bucket 2, ⟨⟨[(1, 7)]⟩, []⟩)]).lookupNode (RENodeId.Bucket 2) =
            some n ∧
        ∀ p ∈ node_to_substates n.root,
          (SubstateIdL.mk (RENodeId.Bucket 2) p.1, p.2) ∈
            (Track.mk [(⟨RENodeId.Bucket 2, 1⟩, 7),
              (⟨RENodeId.Worktop, 0⟩, 5)]).substates) := by
  have heq : (Heap.mk [(RENodeId.Worktop, ⟨⟨[(0, 5)]⟩, [RENodeId.Bucket 2]⟩),
      (RENodeId.Bucket 2, ⟨⟨[(1, 7)]⟩, []⟩)]).move_node_to_store ⟨[]⟩
        RENodeId.Worktop =
      (Heap.mk [],
       Track.mk [(⟨RENodeId.Bucket 2, 1⟩, 7), (⟨RENodeId.Worktop, 0⟩, 5)], none) := by
    simp [Heap.move_node_to_store, movePending, Heap.removeNode, Heap.lookupNode,
      alookup, Track.insert_substate, node_to_substates, List.filter]
  have hreach : ReachFrom
      (Heap.mk [(RENodeId.Worktop, ⟨⟨[(0, 5)]⟩, [RENodeId.Bucket 2]⟩),
        (RENodeId.Bucket 2, ⟨⟨[(1, 7)]⟩, []⟩)]) [RENodeId.Worktop]
      (RENodeId.Bucket 2) :=
    @ReachFrom.step
      (Heap.mk [(RENodeId.Worktop, ⟨⟨[(0, 5)]⟩, [RENodeId.Bucket 2]⟩),
        (RENodeId.Bucket 2, ⟨⟨[(1, 7)]⟩, []⟩)]) [RENodeId.Worktop]
      RENodeId.Worktop (RENodeId.Bucket 2) ⟨⟨[(0, 5)]⟩, [RENodeId.Bucket 2]⟩
      (ReachFrom.seed (by simp)) (by decide) (by simp)
  exact ⟨heq,
    (move_node_to_store_spec
      (Heap.mk [(RENodeId.Worktop, ⟨⟨[(0, 5)]⟩, [RENodeId.Bucket 2]⟩),
        (RENodeId.Bucket 2, ⟨⟨[(1, 7)]⟩, []⟩)]) ⟨[]⟩ RENodeId.Worktop
      (Heap.mk [])
      (Track.mk [(⟨RENodeId.Bucket 2, 1⟩, 7), (⟨RENodeId.Worktop, 0⟩, 5)])).1
      heq (RENodeId.Bucket 2) hreach⟩

theorem consume_err {r c : Nat} {e : RuntimeError} (h : consume r c = .error e) :
    e = RuntimeError.CostingError := by
  unfold consume at h
  split at h
  · exact absurd h (by simp)
  · simpa using h.symm

theorem process_call_data_err {v : ScryptoValue} {e : RuntimeError}
    (h : process_call_data v = .error e) :
    e = RuntimeError.KeyValueStoreNotAllowed ∨ e = RuntimeError.VaultNotAllowed := by
  unfold process_call_data at h
  split at h
  · exact Or.inl (by simpa using h.symm)
  · split at h
    · exact Or.inr (by simpa using h.symm)
    · exact absurd h (by simp)

theorem verify_can_move_err {n : HeapRENodeK} {e : RuntimeError}
    (h : n.verify_can_move = .error e) :
    e = RuntimeError.CantMoveLockedBucket ∨ e = RuntimeError.CantMoveRestrictedProof := by
  cases n
  case Bucket b =>
    by_cases hb : b.is_locked <;> simp [HeapRENodeK.verify_can_move, hb] at h
    exact Or.inl h.symm
  case Proof p =>
    by_cases hp : p.is_restricted <;> simp [HeapRENodeK.verify_can_move, hp] at h
    exact Or.inr h.symm
  all_goals simp [HeapRENodeK.verify_can_move] at h

theorem verify_can_persist_err {n : HeapRENodeK} {e : RuntimeError}
    (h : n.verify_can_persist = .error e) : e = RuntimeError.ValueNotAllowed := by
  cases n <;> simp [HeapRENodeK.verify_can_persist] at h <;> exact h.symm

theorem takeAvail_err {owned : List (RENodeId × HeapRootRENode)} {ids : List RENodeId}
    {persist : Bool} {e : RuntimeError} (h : takeAvail owned ids persist = .error e) :
    e = RuntimeError.CantMoveLockedBucket ∨ e = RuntimeError.CantMoveRestrictedProof ∨
    e = RuntimeError.ValueNotAllowed := by
  induction ids generalizing owned with
  | nil => simp [takeAvail] at h
  | cons id rest ih =>
    simp only [takeAvail] at h
    split at h
    · split at h
      · rename_i e1 he1
        simp only [Except.error.injEq] at h
        subst h
        exact ih he1
      · exact absurd h (by simp)
    · split at h
      · rename_i e1 he1
        simp only [Except.error.injEq] at h
        subst h
        rcases verify_can_move_err he1 with h1 | h1
        · exact Or.inl h1
        · exact Or.inr (Or.inl h1)
      · split at h
        · rename_i e2 he2
          simp only [Except.error.injEq] at h
          subst h
          by_cases hp : persist
          · rw [if_pos hp] at he2
            exact Or.inr (Or.inr (verify_can_persist_err he2))
          · rw [if_neg hp] at he2
            exact absurd he2 (by simp)
        · split at h
          · rename_i e3 he3
            simp only [Except.error.injEq] at h
            subst h
            exact ih he3
          · exact absurd h (by simp)

theorem passRefs_err {node_refs : List (RENodeId × RENodePointer)} {addrs : List Nat}
    {e : RuntimeError} (h : passRefs node_refs addrs = .error e) :
    ∃ id, e = RuntimeError.InvokeMethodInvalidReferencePass id := by
  induction addrs with
  | nil => simp [passRefs] at h
  | cons a rest ih =>
    simp only [passRefs] at h
    split at h
    · split at h
      · rename_i e1 he1
        simp only [Except.error.injEq] at h
        subst h
        exact ih he1
      · exact absurd h (by simp)
    · simp only [Except.error.injEq] at h
      exact ⟨_, h.symm⟩

theorem resolvePointer_err {cur : CallFrame} {node_id : RENodeId} {g : Bool}
    {e : RuntimeError} (h : resolvePointer cur node_id g = .error e) :
    e = RuntimeError.InvokeMethodInvalidReceiver node_id := by
  unfold resolvePointer at h
  split at h
  · exact absurd h (by simp)
  · split at h
    · exact absurd h (by simp)
    · split at h
      · exact absurd h (by simp)
      · simpa using h.symm

theorem resolveReceiver_err {cur : CallFrame} {receiver : Receiver} {e : RuntimeError}
    (h : resolveReceiver cur receiver = .error e) :
    (∃ id, e = RuntimeError.RENodeNotFound id) ∨ e = RuntimeError.MethodDoesNotExist ∨
    (∃ id, e = RuntimeError.InvokeMethodInvalidReceiver id) := by
  cases receiver with
  | Consumed node_id =>
    simp only [resolveReceiver] at h
    split at h
    · simp only [Except.error.injEq] at h
      exact Or.inl ⟨node_id, h.symm⟩
    · exact absurd h (by simp)
  | NativeRENodeRef node_id =>
    simp only [resolveReceiver] at h
    split at h <;>
    first
    | (simp only [Except.error.injEq] at h
       exact Or.inr (Or.inl h.symm))
    | (split at h
       · rename_i e1 he1
         simp only [Except.error.injEq] at h
         subst h
         exact Or.inr (Or.inr ⟨_, resolvePointer_err he1⟩)
       · exact absurd h (by simp))
  | AuthZoneRef => simp [resolveReceiver] at h
  | Component addr =>
    simp only [resolveReceiver] at h
    split at h
    · rename_i e1 he1
      simp only [Except.error.injEq] at h
      subst h
      exact Or.inr (Or.inr ⟨_, resolvePointer_err he1⟩)
    · exact absurd h (by simp)

theorem takeAvail_sub {owned owned' taken : List (RENodeId × HeapRootRENode)}
    {ids missing : List RENodeId} {persist : Bool}
    (h : takeAvail owned ids persist = .ok (owned', taken, missing)) :
    ∀ x v, alookup owned' x = some v → alookup owned x = some v := by
  induction ids generalizing owned taken missing with
  | nil =>
    simp only [takeAvail, Except.ok.injEq, Prod.mk.injEq] at h
    obtain ⟨rfl, -, -⟩ := h
    exact fun x v hv => hv
  | cons id rest ih =>
    simp only [takeAvail] at h
    cases hl : alookup owned id with
    | none =>
      simp only [hl] at h
      cases hrec : takeAvail owned rest persist with
      | error e => simp [hrec] at h
      | ok tri =>
        obtain ⟨o1, t1, m1⟩ := tri
        simp only [hrec, Except.ok.injEq, Prod.mk.injEq] at h
        obtain ⟨rfl, -, -⟩ := h
        exact ih hrec
    | some node =>
      simp only [hl] at h
      cases hmv : node.root.verify_can_move with
      | error e => simp [hmv] at h
      | ok u =>
        simp only [hmv] at h
        cases hps : (if persist then node.root.verify_can_persist
            else Except.ok ()) with
        | error e => simp [hps] at h
        | ok u2 =>
          simp only [hps] at h
          cases hrec : takeAvail (removeKey owned id) rest persist with
          | error e => simp [hrec] at h
          | ok tri =>
            obtain ⟨o1, t1, m1⟩ := tri
            simp only [hrec, Except.ok.injEq, Prod.mk.injEq] at h
            obtain ⟨rfl, -, -⟩ := h
            intro x v hv
            have hfx := ih hrec x v hv
            rw [alookup_removeKey] at hfx
            by_cases hx : x = id
            · rw [if_pos hx] at hfx; exact absurd hfx (by simp)
            · rw [if_neg hx] at hfx; exact hfx

theorem takeAvail_taken_gone {owned owned' taken : List (RENodeId × HeapRootRENode)}
    {ids : List RENodeId} {persist : Bool}
    (h : takeAvail owned ids persist = .ok (owned', taken, [])) :
    ∀ x ∈ ids, alookup owned' x = none := by
  induction ids generalizing owned taken with
  | nil => simp
  | cons id rest ih =>
    simp only [takeAvail] at h
    cases hl : alookup owned id with
    | none =>
      simp only [hl] at h
      cases hrec : takeAvail owned rest persist with
      | error e => simp [hrec] at h
      | ok tri =>
        obtain ⟨o1, t1, m1⟩ := tri
        simp only [hrec, Except.ok.injEq, Prod.mk.injEq] at h
        exact absurd h.2.2 (by simp)
    | some node =>
      simp only [hl] at h
      cases hmv : node.root.verify_can_move with
      | error e => simp [hmv] at h
      | ok u =>
        simp only [hmv] at h
        cases hps : (if persist then node.root.verify_can_persist
            else Except.ok ()) with
        | error e => simp [hps] at h
        | ok u2 =>
          simp only [hps] at h
          cases hrec : takeAvail (removeKey owned id) rest persist with
          | error e => simp [hrec] at h
          | ok tri =>
            obtain ⟨o1, t1, m1⟩ := tri
            simp only [hrec, Except.ok.injEq, Prod.mk.injEq] at h
            obtain ⟨ho, -, hm⟩ := h
            subst ho
            subst hm
            intro x hx
            rcases List.mem_cons.mp hx with rfl | hxr
            · cases hv : alookup o1 x with
              | none => rfl
              | some v =>
                have hsub := takeAvail_sub hrec x v hv
                rw [alookup_removeKey, if_pos rfl] at hsub
                exact absurd hsub (by simp)
            · exact ih hrec x hxr

theorem restrictProofs_restricted {l : List (RENodeId × HeapRootRENode)}
    {id : RENodeId} {node : HeapRootRENode} {p : ProofM}
    (hm : (id, node) ∈ restrictProofs l) (hr : node.root = HeapRENodeK.Proof p) :
    p.restricted = true := by
  unfold restrictProofs at hm
  obtain ⟨q, hq, he⟩ := List.mem_map.mp hm
  cases he
  have hroot : (match q.2.root with
      | HeapRENodeK.Proof p0 => HeapRENodeK.Proof p0.change_to_restricted
      | r => r) = HeapRENodeK.Proof p := hr
  cases hqr : q.2.root <;> rw [hqr] at hroot <;>
    first
    | (injection hroot with h2
       rw [show p = _ from h2.symm]
       rfl)
    | exact absurd hroot (by simp)

theorem resolveReceiver_adds {cur : CallFrame} {receiver : Receiver}
    {cur2 : CallFrame} {adds : List (RENodeId × HeapRootRENode)}
    {refs : List (RENodeId × RENodePointer)}
    (h : resolveReceiver cur receiver = .ok (cur2, adds, refs)) :
    ∀ pr ∈ adds, alookup cur.owned_heap_nodes pr.1 = some pr.2 := by
  cases receiver with
  | Consumed node_id =>
    simp only [resolveReceiver] at h
    split at h
    · exact absurd h (by simp)
    · rename_i heap_node hl
      simp only [Except.ok.injEq, Prod.mk.injEq] at h
      obtain ⟨-, rfl, -⟩ := h
      intro pr hpr
      rcases List.mem_singleton.mp hpr with rfl
      exact hl
  | NativeRENodeRef node_id =>
    simp only [resolveReceiver] at h
    split at h <;>
    first
    | (split at h
       · exact absurd h (by simp)
       · simp only [Except.ok.injEq, Prod.mk.injEq] at h
         obtain ⟨-, rfl, -⟩ := h
         intro pr hpr
         exact absurd hpr (by simp))
    | exact absurd h (by simp)
  | AuthZoneRef =>
    simp only [resolveReceiver, Except.ok.injEq, Prod.mk.injEq] at h
    obtain ⟨-, rfl, -⟩ := h
    intro pr hpr
    exact absurd hpr (by simp)
  | Component addr =>
    simp only [resolveReceiver] at h
    split at h
    · exact absurd h (by simp)
    · simp only [Except.ok.injEq, Prod.mk.injEq] at h
      obtain ⟨-, rfl, -⟩ := h
      intro pr hpr
      exact absurd hpr (by simp)

theorem invoke_function_no_maxcall_past_depth (k : Kernel) (tn : TypeNameK)
    (input : ScryptoValue) (hd : k.call_frames.length ≠ k.max_depth) :
    (invoke_function k tn input).2 ≠ some RuntimeError.MaxCallDepthLimitReached := by
  unfold invoke_function
  rw [if_neg hd]
  split
  · rename_i e h1
    have := consume_err h1
    subst this
    simp
  · split
    · rename_i e h2
      have := consume_err h2
      subst this
      simp
    · split
      · rename_i e h3
        rcases process_call_data_err h3 with rfl | rfl <;> simp
      · dsimp only
        split
        · simp
        · split
          · rename_i e h5
            rcases takeAvail_err h5 with rfl | rfl | rfl <;> simp
          · try dsimp only
            split
            · simp
            · split
              · rename_i e h6
                split at h6
                · exact absurd h6 (by simp)
                · obtain ⟨idr, rfl⟩ := passRefs_err h6
                  simp
              · simp

theorem invoke_method_no_maxcall_past_depth (k : Kernel) (recv : Receiver)
    (input : ScryptoValue) (cur0 : CallFrame)
    (hcur : k.call_frames.getLast? = some cur0) (hd : cur0.depth ≠ k.max_depth) :
    (invoke_method k recv input).2 ≠ some RuntimeError.MaxCallDepthLimitReached := by
  unfold invoke_method
  simp only [hcur]
  rw [if_neg hd]
  split
  · rename_i e h1
    have := consume_err h1
    subst this
    simp
  · split
    · rename_i e h2
      have := consume_err h2
      subst this
      simp
    · split
      · rename_i e h3
        rcases process_call_data_err h3 with rfl | rfl <;> simp
      · try dsimp only
        split
        · rename_i e h5
          rcases takeAvail_err h5 with rfl | rfl | rfl <;> simp
        · try dsimp only
          split
          · simp
          · split
            · rename_i e h6
              rcases resolveReceiver_err h6 with ⟨idr, rfl⟩ | rfl | ⟨idr, rfl⟩ <;> simp
            · try dsimp only
              split
              · rename_i e h7
                obtain ⟨idr, rfl⟩ := passRefs_err h7
                simp
              · simp

/-- C2 counterexample: with `max_depth = 2` and two frames (current depth 1,
which has not reached `max_depth`), `invoke_function` already fails with
`MaxCallDepthLimitReached` (its check is `call_frames.len() == max_depth`,
`kernel.rs` line 470) while `invoke_method` (whose check is
`current_frame.depth == max_depth`, line 660) proceeds and succeeds — the
two entry points do not enforce the same limit, and `invoke_function` fails
although the current depth is below `max_depth`. -/
theorem invoke_depth_check_counterexample :
    (Kernel.mk 2 100 1 1 1 1 1 [⟨0, [], []⟩, ⟨1, [], []⟩] []).call_frames.getLast? =
      some ⟨1, [], []⟩ ∧
    (1 : Nat) ≠ 2 ∧
    (invoke_function (Kernel.mk 2 100 1 1 1 1 1 [⟨0, [], []⟩, ⟨1, [], []⟩] [])
      TypeNameK.Package ⟨[], [], [], [], []⟩).2 =
        some RuntimeError.MaxCallDepthLimitReached ∧
    (invoke_method (Kernel.mk 2 100 1 1 1 1 1 [⟨0, [], []⟩, ⟨1, [], []⟩] [])
      Receiver.AuthZoneRef ⟨[], [], [], [], []⟩).2 = none := by
  refine ⟨rfl, by decide, rfl, by decide⟩

/-- C2 (amended): `invoke_function` fails with `MaxCallDepthLimitReached`
exactly when the number of call frames equals `max_depth` (i.e. the current
depth is `max_depth - 1`), while `invoke_method` fails exactly when the
current frame's depth equals `max_depth`; in each case the kernel state is
returned unchanged — no cost units consumed, no owned nodes taken, no child
frame pushed. -/
theorem invoke_depth_limit_amended (k : Kernel) (tn : TypeNameK) (recv : Receiver)
    (input : ScryptoValue) (cur : CallFrame)
    (hcur : k.call_frames.getLast? = some cur) :
    ((invoke_function k tn input).2 = some RuntimeError.MaxCallDepthLimitReached ↔
      k.call_frames.length = k.max_depth) ∧
    (k.call_frames.length = k.max_depth →
      invoke_function k tn input = (k, some RuntimeError.MaxCallDepthLimitReached)) ∧
    ((invoke_method k recv input).2 = some RuntimeError.MaxCallDepthLimitReached ↔
      cur.depth = k.max_depth) ∧
    (cur.depth = k.max_depth →
      invoke_method k recv input = (k, some RuntimeError.MaxCallDepthLimitReached)) := by
  refine ⟨⟨?_, ?_⟩, ?_, ⟨?_, ?_⟩, ?_⟩
  · intro h
    by_contra hne
    exact invoke_function_no_maxcall_past_depth k tn input hne h
  · intro hlen
    unfold invoke_function
    rw [if_pos hlen]
  · intro hlen
    unfold invoke_function
    rw [if_pos hlen]
  · intro h
    by_contra hne
    exact invoke_method_no_maxcall_past_depth k recv input cur hcur hne h
  · intro hdep
    unfold invoke_method
    simp only [hcur]
    rw [if_pos hdep]
  · intro hdep
    unfold invoke_method
    simp only [hcur]
    rw [if_pos hdep]

theorem invoke_depth_limit_amended_witness :
    ((invoke_function (Kernel.mk 0 100 1 1 1 1 1 [⟨0, [], []⟩] [])
        TypeNameK.Package ⟨[], [], [], [], []⟩).2 =
          some RuntimeError.MaxCallDepthLimitReached ↔
      (Kernel.mk 0 100 1 1 1 1 1 [⟨0, [], []⟩] []).call_frames.length = 0) ∧
    ((invoke_method (Kernel.mk 0 100 1 1 1 1 1 [⟨0, [], []⟩] [])
        Receiver.AuthZoneRef ⟨[], [], [], [], []⟩).2 =
          some RuntimeError.MaxCallDepthLimitReached ↔
      (CallFrame.mk 0 [] []).depth = 0) ∧
    invoke_method (Kernel.mk 0 100 1 1 1 1 1 [⟨0, [], []⟩] [])
      Receiver.AuthZoneRef ⟨[], [], [], [], []⟩ =
      (Kernel.mk 0 100 1 1 1 1 1 [⟨0, [], []⟩] [],
       some RuntimeError.MaxCallDepthLimitReached) := by
  obtain ⟨h1, -, h3, h4⟩ := invoke_depth_limit_amended
    (Kernel.mk 0 100 1 1 1 1 1 [⟨0, [], []⟩] []) TypeNameK.Package
    Receiver.AuthZoneRef ⟨[], [], [], [], []⟩ ⟨0, [], []⟩ rfl
  exact ⟨h1, h3, h4 rfl⟩

/-- C10: an invocation whose argument payload references a key-value store
or vault id fails (`KeyValueStoreNotAllowed` / `VaultNotAllowed`) in both
entry points before any child frame is created (the call frames are
untouched), while the return-data check rejects only key-value stores — a
vault id in a return payload passes `process_return_data`. -/
theorem invoke_rejects_stores_in_args (k : Kernel) (tn : TypeNameK) (recv : Receiver)
    (input : ScryptoValue) (cur : CallFrame)
    (hcur : k.call_frames.getLast? = some cur)
    (hdf : k.call_frames.length ≠ k.max_depth)
    (hdm : cur.depth ≠ k.max_depth)
    (hfeef : k.fee_invoke_function + k.fee_run_function ≤ k.fee_reserve)
    (hfeem : k.fee_invoke_method + k.fee_run_method ≤ k.fee_reserve)
    (hbad : input.kv_store_ids ≠ [] ∨ input.vault_ids ≠ []) :
    ((invoke_function k tn input).2 = some RuntimeError.KeyValueStoreNotAllowed ∨
     (invoke_function k tn input).2 = some RuntimeError.VaultNotAllowed) ∧
    (invoke_function k tn input).1.call_frames = k.call_frames ∧
    ((invoke_method k recv input).2 = some RuntimeError.KeyValueStoreNotAllowed ∨
     (invoke_method k recv input).2 = some RuntimeError.VaultNotAllowed) ∧
    (invoke_method k recv input).1.call_frames = k.call_frames ∧
    (input.kv_store_ids = [] → process_return_data input = Except.ok ()) := by
  have h1 : consume k.fee_reserve k.fee_invoke_function =
      .ok (k.fee_reserve - k.fee_invoke_function) := by
    unfold consume
    rw [if_pos (by omega)]
  have h2 : consume (k.fee_reserve - k.fee_invoke_function) k.fee_run_function =
      .ok (k.fee_reserve - k.fee_invoke_function - k.fee_run_function) := by
    unfold consume
    rw [if_pos (by omega)]
  have h1m : consume k.fee_reserve k.fee_invoke_method =
      .ok (k.fee_reserve - k.fee_invoke_method) := by
    unfold consume
    rw [if_pos (by omega)]
  have h2m : consume (k.fee_reserve - k.fee_invoke_method) k.fee_run_method =
      .ok (k.fee_reserve - k.fee_invoke_method - k.fee_run_method) := by
    unfold consume
    rw [if_pos (by omega)]
  have hret : input.kv_store_ids = [] → process_return_data input = Except.ok () := by
    intro hk
    simp [process_return_data, hk]
  have hpc : process_call_data input = .error RuntimeError.KeyValueStoreNotAllowed ∨
      process_call_data input = .error RuntimeError.VaultNotAllowed := by
    by_cases hkv : input.kv_store_ids = []
    · right
      have hv : input.vault_ids ≠ [] := by
        rcases hbad with hkv' | hv
        · exact absurd hkv hkv'
        · exact hv
      cases hvv : input.vault_ids with
      | nil => exact absurd hvv hv
      | cons a l =>
        simp [process_call_data, hkv, hvv]
    · left
      cases hkk : input.kv_store_ids with
      | nil => exact absurd hkk hkv
      | cons a l =>
        simp [process_call_data, hkk]
  rcases hpc with hpc | hpc
  · have hf : invoke_function k tn input =
        ({ k with fee_reserve := k.fee_reserve - k.fee_invoke_function - k.fee_run_function },
         some RuntimeError.KeyValueStoreNotAllowed) := by
      unfold invoke_function
      rw [if_neg hdf]
      simp only [h1, h2, hpc]
    have hm : invoke_method k recv input =
        ({ k with fee_reserve := k.fee_reserve - k.fee_invoke_method - k.fee_run_method },
         some RuntimeError.KeyValueStoreNotAllowed) := by
      unfold invoke_method
      simp only [hcur]
      rw [if_neg hdm]
      simp only [h1m, h2m, hpc]
    exact ⟨Or.inl (by rw [hf]), by rw [hf], Or.inl (by rw [hm]), by rw [hm], hret⟩
  · have hf : invoke_function k tn input =
        ({ k with fee_reserve := k.fee_reserve - k.fee_invoke_function - k.fee_run_function },
         some RuntimeError.VaultNotAllowed) := by
      unfold invoke_function
      rw [if_neg hdf]
      simp only [h1, h2, hpc]
    have hm : invoke_method k recv input =
        ({ k with fee_reserve := k.fee_reserve - k.fee_invoke_method - k.fee_run_method },
         some RuntimeError.VaultNotAllowed) := by
      unfold invoke_method
      simp only [hcur]
      rw [if_neg hdm]
      simp only [h1m, h2m, hpc]
    exact ⟨Or.inr (by rw [hf]), by rw [hf], Or.inr (by rw [hm]), by rw [hm], hret⟩

theorem invoke_rejects_stores_in_args_witness :
    ((invoke_function (Kernel.mk 5 100 1 1 1 1 1 [⟨0, [], []⟩] [])
        TypeNameK.Package ⟨[], [], [List.replicate 36 0], [], []⟩).2 =
          some RuntimeError.KeyValueStoreNotAllowed ∨
     (invoke_function (Kernel.mk 5 100 1 1 1 1 1 [⟨0, [], []⟩] [])
        TypeNameK.Package ⟨[], [], [List.replicate 36 0], [], []⟩).2 =
          some RuntimeError.VaultNotAllowed) ∧
    process_return_data ⟨[], [], [List.replicate 36 0], [], []⟩ = Except.ok () := by
  obtain ⟨ha, -, -, -, hr⟩ := invoke_rejects_stores_in_args
    (Kernel.mk 5 100 1 1 1 1 1 [⟨0, [], []⟩] []) TypeNameK.Package
    Receiver.AuthZoneRef ⟨[], [], [List.replicate 36 0], [], []⟩ ⟨0, [], []⟩
    rfl (by decide) (by decide) (by decide) (by decide)
    (Or.inr (by simp))
  exact ⟨ha, hr rfl⟩

theorem invoke_function_ok_child {k : Kernel} {tn : TypeNameK} {input : ScryptoValue}
    {kf : Kernel} (hf : invoke_function k tn input = (kf, none)) :
    ∃ cur taken owned1 next_refs,
      k.call_frames.getLast? = some cur ∧
      takeAvail cur.owned_heap_nodes input.node_ids false =
        .ok (owned1, taken, []) ∧
      kf.call_frames.getLast? =
        some ⟨cur.depth + 1, restrictProofs taken, next_refs⟩ := by
  unfold invoke_function at hf
  by_cases hd : k.call_frames.length = k.max_depth
  · rw [if_pos hd] at hf
    simp at hf
  · rw [if_neg hd] at hf
    cases h1 : consume k.fee_reserve k.fee_invoke_function with
    | error e => simp [h1] at hf
    | ok r1 =>
      simp only [h1] at hf
      cases h2 : consume r1 k.fee_run_function with
      | error e => simp [h2] at hf
      | ok r2 =>
        simp only [h2] at hf
        cases h3 : process_call_data input with
        | error e => simp [h3] at hf
        | ok u =>
          simp only [h3] at hf
          try dsimp only at hf
          cases h4 : k.call_frames.getLast? with
          | none => simp [h4] at hf
          | some cur =>
            simp only [h4] at hf
            cases h5 : takeAvail cur.owned_heap_nodes input.node_ids false with
            | error e => simp [h5] at hf
            | ok tri =>
              obtain ⟨owned1, taken, missing⟩ := tri
              simp only [h5] at hf
              try dsimp only at hf
              cases missing with
              | cons m ms => simp at hf
              | nil =>
                cases h6 : (if k.call_frames.length = 1
                    then Except.ok (input.refed_component_addresses.map
                        (fun a => (RENodeId.Component a, RENodePointer.Store)))
                    else passRefs cur.node_refs input.refed_component_addresses) with
                | error e => simp [h6] at hf
                | ok next_refs =>
                  simp only [h6] at hf
                  try dsimp only at hf
                  simp only [Prod.mk.injEq, and_true] at hf
                  refine ⟨cur, taken, owned1, next_refs, rfl, h5, ?_⟩
                  rw [← hf]
                  exact List.getLast?_concat _

theorem invoke_method_ok_child {k : Kernel} {recv : Receiver} {input : ScryptoValue}
    {km : Kernel} (hm : invoke_method k recv input = (km, none)) :
    ∃ cur0 owned1 taken cur2 adds refs arg_refs,
      k.call_frames.getLast? = some cur0 ∧
      takeAvail cur0.owned_heap_nodes input.node_ids false =
        .ok (owned1, taken, []) ∧
      resolveReceiver ⟨cur0.depth, owned1, cur0.node_refs⟩ recv =
        .ok (cur2, adds, refs) ∧
      km.call_frames.getLast? =
        some ⟨cur2.depth + 1, restrictProofs taken ++ adds, refs ++ arg_refs⟩ := by
  unfold invoke_method at hm
  cases h0 : k.call_frames.getLast? with
  | none => simp [h0] at hm
  | some cur0 =>
    simp only [h0] at hm
    by_cases hd : cur0.depth = k.max_depth
    · rw [if_pos hd] at hm
      simp at hm
    · rw [if_neg hd] at hm
      cases h1 : consume k.fee_reserve k.fee_invoke_method with
      | error e => simp [h1] at hm
      | ok r1 =>
        simp only [h1] at hm
        cases h2 : consume r1 k.fee_run_method with
        | error e => simp [h2] at hm
        | ok r2 =>
          simp only [h2] at hm
          cases h3 : process_call_data input with
          | error e => simp [h3] at hm
          | ok u =>
            simp only [h3] at hm
            try dsimp only at hm
            cases h5 : takeAvail cur0.owned_heap_nodes input.node_ids false with
            | error e => simp [h5] at hm
            | ok tri =>
              obtain ⟨owned1, taken, missing⟩ := tri
              simp only [h5] at hm
              try dsimp only at hm
              cases missing with
              | cons m ms => simp at hm
              | nil =>
                cases h6 : resolveReceiver ⟨cur0.depth, owned1, cur0.node_refs⟩
                    recv with
                | error e => simp [h6] at hm
                | ok tri2 =>
                  obtain ⟨cur2, adds, refs⟩ := tri2
                  simp only [h6] at hm
                  try dsimp only at hm
                  cases h7 : passRefs cur2.node_refs
                      input.refed_component_addresses with
                  | error e => simp [h7] at hm
                  | ok arg_refs =>
                    simp only [h7] at hm
                    try dsimp only at hm
                    simp only [Prod.mk.injEq, and_true] at hm
                    refine ⟨cur0, owned1, taken, cur2, adds, refs, arg_refs,
                      rfl, h5, h6, ?_⟩
                    rw [← hm]
                    exact List.getLast?_concat _

/-- C4: every proof taken from the caller's owned set as part of an
invocation argument payload is transitioned to restricted before the callee
frame is created: in `invoke_function` every proof owned by the child frame
is restricted, and in `invoke_method` every proof the child owns under an
id referenced by the argument payload is restricted (the consumed receiver,
which is not part of the payload, is the only other owned node). -/
theorem invoke_restricts_passed_proofs (k : Kernel) (tn : TypeNameK) (recv : Receiver)
    (input : ScryptoValue) (kf km : Kernel) (childf childm : CallFrame)
    (hf : invoke_function k tn input = (kf, none))
    (hm : invoke_method k recv input = (km, none))
    (hcf : kf.call_frames.getLast? = some childf)
    (hcm : km.call_frames.getLast? = some childm) :
    (∀ id node p, (id, node) ∈ childf.owned_heap_nodes →
        node.root = HeapRENodeK.Proof p → p.restricted = true) ∧
    (∀ id node p, (id, node) ∈ childm.owned_heap_nodes → id ∈ input.node_ids →
        node.root = HeapRENodeK.Proof p → p.restricted = true) := by
  constructor
  · obtain ⟨cur, taken, owned1, next_refs, -, -, hlast⟩ := invoke_function_ok_child hf
    rw [hcf] at hlast
    injection hlast with hchild
    intro id node p hmem hroot
    rw [hchild] at hmem
    exact restrictProofs_restricted hmem hroot
  · obtain ⟨cur0, owned1, taken, cur2, adds, refs, arg_refs, -, htake, hres, hlast⟩ :=
      invoke_method_ok_child hm
    rw [hcm] at hlast
    injection hlast with hchild
    intro id node p hmem hin hroot
    rw [hchild] at hmem
    rcases List.mem_append.mp hmem with hmem1 | hmem2
    · exact restrictProofs_restricted hmem1 hroot
    · have hadd : alookup owned1 id = some node :=
        resolveReceiver_adds hres (id, node) hmem2
      have hgone := takeAvail_taken_gone htake id hin
      rw [hgone] at hadd
      exact absurd hadd (by simp)

theorem invoke_restricts_passed_proofs_witness :
    (∀ id node p, (id, node) ∈ (CallFrame.mk 1
        [(RENodeId.Proof 9,
          HeapRootRENode.mk (HeapRENodeK.Proof (ProofM.mk true)) [])]
        []).owned_heap_nodes →
      node.root = HeapRENodeK.Proof p → p.restricted = true) ∧
    (∀ id node p, (id, node) ∈ (CallFrame.mk 1
        [(RENodeId.Proof 9,
          HeapRootRENode.mk (HeapRENodeK.Proof (ProofM.mk true)) [])]
        []).owned_heap_nodes →
      id ∈ (ScryptoValue.mk [] [9] [] [] []).node_ids →
      node.root = HeapRENodeK.Proof p → p.restricted = true) :=
  invoke_restricts_passed_proofs
    (Kernel.mk 5 100 1 1 1 1 1
      [CallFrame.mk 0
        [(RENodeId.Proof 9,
          HeapRootRENode.mk (HeapRENodeK.Proof (ProofM.mk false)) [])] []] [])
    TypeNameK.Package Receiver.AuthZoneRef (ScryptoValue.mk [] [9] [] [] [])
    (Kernel.mk 5 98 1 1 1 1 1
      [CallFrame.mk 0 [] [],
       CallFrame.mk 1
        [(RENodeId.Proof 9,
          HeapRootRENode.mk (HeapRENodeK.Proof (ProofM.mk true)) [])] []] [])
    (Kernel.mk 5 98 1 1 1 1 1
      [CallFrame.mk 0 [] [],
       CallFrame.mk 1
        [(RENodeId.Proof 9,
          HeapRootRENode.mk (HeapRENodeK.Proof (ProofM.mk true)) [])] []] [])
    (CallFrame.mk 1
      [(RENodeId.Proof 9,
        HeapRootRENode.mk (HeapRENodeK.Proof (ProofM.mk true)) [])] [])
    (CallFrame.mk 1
      [(RENodeId.Proof 9,
        HeapRootRENode.mk (HeapRENodeK.Proof (ProofM.mk true)) [])] [])
    (by decide) (by decide) (by decide) (by decide)

theorem substatesOf_can {nid : RENodeId} {root : HeapRENodeK}
    {s : List (SubstateIdK × SubstateK)} (h : substatesOf nid root = some s) :
    RENodeProperties.can_globalize nid = true ∧
    root.verify_can_move = Except.ok () := by
  unfold substatesOf at h
  split at h
  · exact ⟨rfl, rfl⟩
  · exact ⟨rfl, rfl⟩
  · exact ⟨rfl, rfl⟩
  · exact absurd h (by simp)

/-- C8 counterexample: a `System` node passes `can_globalize`
(`node_properties.rs` line 21), but `node_globalize`'s match over the taken
root node (`kernel.rs` lines 1392-1427) has no `System` arm — it panics
(`Unreachable`) instead of moving the node's substates into Track, so "for
the allowed kinds the node's substates are moved into Track" fails at
`System`. -/
theorem node_globalize_system_panics :
    RENodeProperties.can_globalize RENodeId.System = true ∧
    (node_globalize
      (Kernel.mk 5 100 1 1 1 1 1
        [CallFrame.mk 0
          [(RENodeId.System, HeapRootRENode.mk HeapRENodeK.System [])] []] [])
      RENodeId.System).2 = some RuntimeError.Unreachable ∧
    (node_globalize
      (Kernel.mk 5 100 1 1 1 1 1
        [CallFrame.mk 0
          [(RENodeId.System, HeapRootRENode.mk HeapRENodeK.System [])] []] [])
      RENodeId.System).1.track = [] := by
  refine ⟨rfl, by decide, by decide⟩

/-- C8 (amended): `node_globalize` fails with
`RENodeGlobalizeTypeNotAllowed` exactly when the node id fails
`can_globalize` (not a Component, ResourceManager, Package or System node),
and that check happens before the node is taken from the frame (frames and
track unchanged); for an owned Component, ResourceManager or Package node
the root substates are recorded in Track and the frame gains a `Store`
reference — but not for `System`, whose globalize panics (see the
counterexample). -/
theorem node_globalize_spec (k : Kernel) (node_id : RENodeId) (cur : CallFrame)
    (hcur : k.call_frames.getLast? = some cur)
    (hfee : k.fee_globalize ≤ k.fee_reserve) :
    ((node_globalize k node_id).2 =
        some (RuntimeError.RENodeGlobalizeTypeNotAllowed node_id) ↔
      RENodeProperties.can_globalize node_id = false) ∧
    (RENodeProperties.can_globalize node_id = false →
      (node_globalize k node_id).1.call_frames = k.call_frames ∧
      (node_globalize k node_id).1.track = k.track) ∧
    (∀ root_node substates,
      alookup cur.owned_heap_nodes node_id = some root_node →
      substatesOf node_id root_node.root = some substates →
      (node_globalize k node_id).2 = none ∧
      (∀ e ∈ substates, e ∈ (node_globalize k node_id).1.track) ∧
      ∃ child, (node_globalize k node_id).1.call_frames.getLast? = some child ∧
        (node_id, RENodePointer.Store) ∈ child.node_refs) := by
  have h1 : consume k.fee_reserve k.fee_globalize =
      .ok (k.fee_reserve - k.fee_globalize) := by
    unfold consume
    rw [if_pos hfee]
  by_cases hg : RENodeProperties.can_globalize node_id = true
  · have hne : (node_globalize k node_id).2 ≠
        some (RuntimeError.RENodeGlobalizeTypeNotAllowed node_id) := by
      unfold node_globalize
      simp only [h1]
      rw [if_neg (by simp [hg])]
      split
      · simp
      · split
        · rename_i e he
          rcases takeAvail_err he with rfl | rfl | rfl <;> simp
        · try dsimp only
          split
          · simp
          · split
            · split
              · simp
              · simp
            · simp
    refine ⟨⟨fun h => absurd h hne, fun h => absurd hg (by simp [h])⟩,
      fun h => absurd hg (by simp [h]), ?_⟩
    intro root_node substates hlook hsubst
    have hmv := (substatesOf_can hsubst).2
    have htake : takeAvail cur.owned_heap_nodes [node_id] false =
        .ok (removeKey cur.owned_heap_nodes node_id, [(node_id, root_node)], []) := by
      simp [takeAvail, hlook, hmv]
    have hng : node_globalize k node_id =
        ({ max_depth := k.max_depth,
           fee_reserve := k.fee_reserve - k.fee_globalize,
           fee_invoke_function := k.fee_invoke_function,
           fee_run_function := k.fee_run_function,
           fee_invoke_method := k.fee_invoke_method,
           fee_run_method := k.fee_run_method,
           fee_globalize := k.fee_globalize,
           call_frames := (k.call_frames.dropLast ++
             [{ cur with owned_heap_nodes := removeKey cur.owned_heap_nodes node_id }]).dropLast ++
             [{ cur with
                  owned_heap_nodes := removeKey cur.owned_heap_nodes node_id,
                  node_refs := (node_id, RENodePointer.Store) :: cur.node_refs }],
           track := substates ++ k.track }, none) := by
      unfold node_globalize
      simp only [h1]
      rw [if_neg (by simp [hg])]
      simp only [hcur, htake]
      try dsimp only
      simp only [hsubst]
    refine ⟨by rw [hng], ?_, ?_⟩
    · intro e he
      rw [hng]
      exact List.mem_append_left _ he
    · refine ⟨{ cur with
          owned_heap_nodes := removeKey cur.owned_heap_nodes node_id,
          node_refs := (node_id, RENodePointer.Store) :: cur.node_refs }, ?_, ?_⟩
      · rw [hng]
        exact List.getLast?_concat _
      · exact List.mem_cons_self _ _
  · have hgf : RENodeProperties.can_globalize node_id = false := by
      simpa using hg
    have hng : node_globalize k node_id =
        ({ k with fee_reserve := k.fee_reserve - k.fee_globalize },
         some (RuntimeError.RENodeGlobalizeTypeNotAllowed node_id)) := by
      unfold node_globalize
      simp only [h1]
      rw [if_pos hgf]
    refine ⟨⟨fun _ => hgf, fun _ => by rw [hng]⟩,
      fun _ => ⟨by rw [hng], by rw [hng]⟩, ?_⟩
    intro root_node substates hlook hsubst
    have := (substatesOf_can hsubst).1
    rw [hgf] at this
    exact absurd this (by simp)

theorem node_globalize_spec_witness :
    (node_globalize
      (Kernel.mk 5 100 1 1 1 1 1
        [CallFrame.mk 0
          [(RENodeId.Package 7, HeapRootRENode.mk HeapRENodeK.Package [])] []] [])
      (RENodeId.Package 7)).2 = none ∧
    (∀ e ∈ [(SubstateIdK.Package 7, SubstateK.Package)],
      e ∈ (node_globalize
        (Kernel.mk 5 100 1 1 1 1 1
          [CallFrame.mk 0
            [(RENodeId.Package 7, HeapRootRENode.mk HeapRENodeK.Package [])] []] [])
        (RENodeId.Package 7)).1.track) ∧
    ∃ child, (node_globalize
        (Kernel.mk 5 100 1 1 1 1 1
          [CallFrame.mk 0
            [(RENodeId.Package 7, HeapRootRENode.mk HeapRENodeK.Package [])] []] [])
        (RENodeId.Package 7)).1.call_frames.getLast? = some child ∧
      (RENodeId.Package 7, RENodePointer.Store) ∈ child.node_refs :=
  (node_globalize_spec
    (Kernel.mk 5 100 1 1 1 1 1
      [CallFrame.mk 0
        [(RENodeId.Package 7, HeapRootRENode.mk HeapRENodeK.Package [])] []] [])
    (RENodeId.Package 7)
    (CallFrame.mk 0
      [(RENodeId.Package 7, HeapRootRENode.mk HeapRENodeK.Package [])] [])
    rfl (by decide)).2.2
    (HeapRootRENode.mk HeapRENodeK.Package [])
    [(SubstateIdK.Package 7, SubstateK.Package)]
    (by decide) rfl
